import Mathlib

/-!
Shallow embedding of the PCI ID database of `collector/pci_ids.go`
(`pciIDProvider`: the `load` parser and the four lookup accessors
`getVendorName`, `getDeviceName`, `getSubsystemName`, `getClassName`).

Strings are Lean `String`s; every Go string primitive used by the source
(`strings.HasPrefix`, `strings.TrimPrefix`, `strings.TrimSpace`,
`strings.SplitN(line, "  ", 2)`, `strings.Fields`, `strings.ToLower`,
byte slicing `s[:n]`, `len`) is modelled structurally over the character
list `String.data`.  All identifiers involved are ASCII, where Go byte
slicing and byte length agree with character operations, and Go's Unicode
`ToLower` agrees with ASCII lowercasing.

Go maps are modelled as association lists where insertion prepends, so a
later insertion for the same key shadows an earlier one, exactly the
overwrite semantics of `m[k] = v`.
-/

namespace PciIds

/-- `strings.HasPrefix` over character lists: does `s` start with `p`? -/
def startsWithL : List Char → List Char → Bool
  | _, [] => true
  | [], _ :: _ => false
  | c :: s, d :: p => c == d && startsWithL s p

/-- `strings.HasPrefix(s, p)`. -/
def goHasPref (s p : String) : Bool := startsWithL s.data p.data

/-- `strings.TrimPrefix` over character lists: drop `p` if `s` starts with it. -/
def dropPrefL (s p : List Char) : List Char :=
  if startsWithL s p then s.drop p.length else s

/-- `strings.TrimPrefix(s, p)`. -/
def goTrimPref (s p : String) : String := String.mk (dropPrefL s.data p.data)

/-- The whitespace class used by Go's `unicode.IsSpace` restricted to ASCII
(the only characters appearing in the inputs at issue). -/
def goIsSpace (c : Char) : Bool :=
  c == ' ' || c == '\t' || c == '\n' || c == '\r' || c == '\x0b' || c == '\x0c'

/-- Trim leading and trailing whitespace of a character list. -/
def trimSpaceL (l : List Char) : List Char :=
  ((l.dropWhile goIsSpace).reverse.dropWhile goIsSpace).reverse

/-- `strings.TrimSpace(s)`. -/
def goTrimSpace (s : String) : String := String.mk (trimSpaceL s.data)

/-- `strings.ToLower(s)` on ASCII input: lowercase every character. -/
def goToLower (s : String) : String := String.mk (s.data.map Char.toLower)

/-- Split a character list at the first occurrence of two consecutive
spaces; `none` when no such separator occurs.  This models
`strings.SplitN(line, "  ", 2)`: a `some (a, b)` outcome corresponds to
`parts = [a, b]` (so `len(parts) >= 2`), a `none` outcome to
`parts = [line]`. -/
def splitTwoSpace : List Char → Option (List Char × List Char)
  | [] => none
  | [_] => none
  | c :: d :: rest =>
    if c == ' ' && d == ' ' then some ([], rest)
    else (splitTwoSpace (d :: rest)).map (fun p => (c :: p.1, p.2))

/-- Accumulator pass for `strings.Fields`: split on runs of whitespace,
returning the maximal non-whitespace runs. -/
def fieldsAux : List Char → List Char → List (List Char)
  | [], acc => if acc.isEmpty then [] else [acc.reverse]
  | c :: rest, acc =>
    if goIsSpace c then
      if acc.isEmpty then fieldsAux rest []
      else acc.reverse :: fieldsAux rest []
    else fieldsAux rest (c :: acc)

/-- `strings.Fields(s)`. -/
def goFields (s : String) : List String := (fieldsAux s.data []).map String.mk

/-- Go byte slice `s[:n]` on ASCII strings (`n` known in bounds at use sites). -/
def strTake (s : String) (n : Nat) : String := String.mk (s.data.take n)

/-! ### Maps as association lists -/

/-- Lookup in a Go map modelled as an association list: the first (most
recently inserted) binding wins. -/
def mfind {β : Type} : List (String × β) → String → Option β
  | [], _ => none
  | (k, v) :: rest, q => if k = q then some v else mfind rest q

/-- Insertion `m[k] = v`: prepend, shadowing earlier bindings of `k`. -/
def minsert {β : Type} (m : List (String × β)) (k : String) (v : β) :
    List (String × β) := (k, v) :: m

/-- The key set of a modelled map. -/
def mkeys {β : Type} (m : List (String × β)) : List String := m.map Prod.fst

/-- `if m[k] == nil { m[k] = make(...) }` for a nested map: materialise an
empty inner map under `k` when the key is absent. -/
def ensureKey (m : List (String × List (String × String))) (k : String) :
    List (String × List (String × String)) :=
  match mfind m k with
  | some _ => m
  | none => minsert m k []

/-- `m[k1][k2] = v` for a nested map (`m[k1]` already materialised or
defaulting to empty). -/
def insertNested (m : List (String × List (String × String)))
    (k1 k2 v : String) : List (String × List (String × String)) :=
  minsert m k1 (minsert ((mfind m k1).getD []) k2 v)

/-! ### The provider's tables (`pciIDProvider`) -/

/-- The six lookup tables of `pciIDProvider`. -/
structure PciDB where
  pciVendors : List (String × String)
  pciDevices : List (String × List (String × String))
  pciSubsystems : List (String × List (String × String))
  pciClasses : List (String × String)
  pciSubclasses : List (String × String)
  pciProgIfs : List (String × String)
deriving DecidableEq

/-- The freshly constructed provider: all tables empty. -/
def emptyDB : PciDB := ⟨[], [], [], [], [], []⟩

/-- The parser state threaded through the scan loop of `load`:
`currentVendor`, `currentDevice`, `currentBaseClass`, `currentSubclass`,
`inClassContext`, plus the tables being populated. -/
structure LoadState where
  db : PciDB
  currentVendor : String
  currentDevice : String
  currentBaseClass : String
  currentSubclass : String
  inClassContext : Bool
deriving DecidableEq

/-- The state at loop entry. -/
def initState : LoadState :=
  ⟨emptyDB, "", "", "", "", false⟩

/-- One iteration of the scan loop of `load`: classify `line` and update
the state.  Branches appear in the source's order; each Go branch ends in
`continue`, so a branch whose guard matches but whose inner condition
fails still consumes the line. -/
def processLine (st : LoadState) (line : String) : LoadState :=
  if line = "" || goHasPref line "#" then st
  else if goHasPref line "C " then
    -- class line
    match splitTwoSpace line.data with
    | some (p0, p1) =>
      let classID := goTrimSpace (String.mk (p0.drop 1))
      let className := goTrimSpace (String.mk p1)
      { st with
        db := { st.db with pciClasses := minsert st.db.pciClasses classID className }
        currentBaseClass := classID
        inClassContext := true }
    | none => st
  else if goHasPref line "\t" && !goHasPref line "\t\t" && st.inClassContext then
    -- subclass line
    let rest := goTrimPref line "\t"
    match splitTwoSpace rest.data with
    | some (p0, p1) =>
      if st.currentBaseClass ≠ "" then
        let subclassID := goTrimSpace (String.mk p0)
        let subclassName := goTrimSpace (String.mk p1)
        let fullClassID := st.currentBaseClass ++ subclassID
        { st with
          db := { st.db with pciSubclasses := minsert st.db.pciSubclasses fullClassID subclassName }
          currentSubclass := fullClassID }
      else st
    | none => st
  else if goHasPref line "\t\t" && !goHasPref line "\t\t\t" && st.inClassContext then
    -- programming interface line
    let rest := goTrimPref line "\t\t"
    match splitTwoSpace rest.data with
    | some (p0, p1) =>
      if st.currentSubclass ≠ "" then
        let progIfID := goTrimSpace (String.mk p0)
        let progIfName := goTrimSpace (String.mk p1)
        let fullClassID := st.currentSubclass ++ progIfID
        { st with
          db := { st.db with pciProgIfs := minsert st.db.pciProgIfs fullClassID progIfName } }
      else st
    | none => st
  else if !goHasPref line "\t" && !goHasPref line "C " then
    -- vendor line
    match splitTwoSpace line.data with
    | some (p0, p1) =>
      let vendorID := goTrimSpace (String.mk p0)
      { st with
        db := { st.db with pciVendors := minsert st.db.pciVendors vendorID (goTrimSpace (String.mk p1)) }
        currentVendor := vendorID
        currentDevice := ""
        inClassContext := false }
    | none => st
  else if goHasPref line "\t" && !goHasPref line "\t\t" then
    -- device line
    let rest := goTrimPref line "\t"
    match splitTwoSpace rest.data with
    | some (p0, p1) =>
      if st.currentVendor ≠ "" then
        let deviceID := goTrimSpace (String.mk p0)
        { st with
          db := { st.db with pciDevices := insertNested st.db.pciDevices st.currentVendor deviceID (goTrimSpace (String.mk p1)) }
          currentDevice := deviceID }
      else st
    | none => st
  else if goHasPref line "\t\t" then
    -- subsystem line
    let rest := goTrimPref line "\t\t"
    match splitTwoSpace rest.data with
    | some (p0, p1) =>
      if st.currentVendor ≠ "" ∧ st.currentDevice ≠ "" then
        let subsysID := goTrimSpace (String.mk p0)
        let subsysName := goTrimSpace (String.mk p1)
        let key := st.currentVendor ++ ":" ++ st.currentDevice
        let subsystems1 := ensureKey st.db.pciSubsystems key
        match goFields subsysID with
        | [a, b] =>
          let subsysKey := a ++ ":" ++ b
          { st with db := { st.db with pciSubsystems := insertNested subsystems1 key subsysKey subsysName } }
        | _ => { st with db := { st.db with pciSubsystems := subsystems1 } }
      else st
    | none => st
  else st

/-- The scan loop of `load` over the file's lines. -/
def loadLines (lines : List String) : PciDB :=
  (lines.foldl processLine initState).db

/-- The first path among `paths` that opens, modelling the fallback loop of
`load`; the file system is abstracted as a partial map from path to lines. -/
def firstOpenable (fs : String → Option (List String)) :
    List String → Option (List String)
  | [] => none
  | p :: rest =>
    match fs p with
    | some lines => some lines
    | none => firstOpenable fs rest

/-- `load(paths, customPath)`: a non-empty `customPath` takes exclusive
precedence; open failure leaves every table empty. -/
def load (fs : String → Option (List String)) (paths : List String)
    (customPath : String) : PciDB :=
  if customPath ≠ "" then
    match fs customPath with
    | some lines => loadLines lines
    | none => emptyDB
  else
    match firstOpenable fs paths with
    | some lines => loadLines lines
    | none => emptyDB

/-! ### The four lookup accessors -/

/-- The normalization every accessor applies to a query:
`strings.ToLower(strings.TrimPrefix(id, "0x"))`. -/
def normalizeID (s : String) : String := goToLower (goTrimPref s "0x")

/-- `getVendorName`. -/
def getVendorName (db : PciDB) (vendorID : String) : String :=
  let v := normalizeID vendorID
  match mfind db.pciVendors v with
  | some name => name
  | none => v

/-- `getDeviceName`. -/
def getDeviceName (db : PciDB) (vendorID deviceID : String) : String :=
  let v := normalizeID vendorID
  let d := normalizeID deviceID
  match mfind db.pciDevices v with
  | some devices =>
    match mfind devices d with
    | some name => name
    | none => d
  | none => d

/-- `getSubsystemName`. -/
def getSubsystemName (db : PciDB) (vendorID deviceID subsysVendorID subsysDeviceID : String) : String :=
  let v := normalizeID vendorID
  let d := normalizeID deviceID
  let sv := normalizeID subsysVendorID
  let sd := normalizeID subsysDeviceID
  let key := v ++ ":" ++ d
  let subsysKey := sv ++ ":" ++ sd
  match mfind db.pciSubsystems key with
  | some subsystems =>
    match mfind subsystems subsysKey with
    | some name => name
    | none => sd
  | none => sd

/-- `getClassName`: probe at decreasing specificity, 6-digit programming
interface, then 4-digit subclass, then 2-digit base class, each slice
guarded by a length check; on total miss synthesize an unknown-class label. -/
def getClassName (db : PciDB) (classID : String) : String :=
  let c := normalizeID classID
  match (if 6 ≤ c.data.length then mfind db.pciProgIfs (strTake c 6) else none) with
  | some className => className
  | none =>
    match (if 4 ≤ c.data.length then mfind db.pciSubclasses (strTake c 4) else none) with
    | some className => className
    | none =>
      match (if 2 ≤ c.data.length then mfind db.pciClasses (strTake c 2) else none) with
      | some className => className
      | none => "Unknown class (" ++ c ++ ")"

/-! ### Instrumented slicing for the safety claim

`getClassNameChecked` is `getClassName` with the Go byte slices `c[:6]`,
`c[:4]`, `c[:2]` replaced by a bounds-checked slice that reports an
out-of-range access (which in Go would be a slice-bounds panic) as `none`. -/

/-- Bounds-checked version of the Go slice `s[:n]`. -/
def strTakeChecked (s : String) (n : Nat) : Option String :=
  if n ≤ s.data.length then some (String.mk (s.data.take n)) else none

/-- One specificity level of `getClassName` with checked slicing:
`none` means a slice-bounds violation, `some none` that this level was
skipped or missed, `some (some name)` a hit. -/
def probeChecked (table : List (String × String)) (c : String) (n : Nat) :
    Option (Option String) :=
  if n ≤ c.data.length then
    match strTakeChecked c n with
    | none => none
    | some s => some (mfind table s)
  else some none

/-- `getClassName` with every slice bounds-checked; `none` would be a
runtime panic of the Go code. -/
def getClassNameChecked (db : PciDB) (classID : String) : Option String :=
  let c := normalizeID classID
  match probeChecked db.pciProgIfs c 6 with
  | none => none
  | some (some className) => some className
  | some none =>
    match probeChecked db.pciSubclasses c 4 with
    | none => none
    | some (some className) => some className
    | some none =>
      match probeChecked db.pciClasses c 2 with
      | none => none
      | some (some className) => some className
      | some none => some ("Unknown class (" ++ c ++ ")")

/-- `strings.Contains` over character lists. -/
def containsL : List Char → List Char → Bool
  | [], sub => startsWithL [] sub
  | c :: t, sub => startsWithL (c :: t) sub || containsL t sub

/-- `strings.Contains(s, sub)`. -/
def goContains (s sub : String) : Bool := containsL s.data sub.data

/-! ### Helper lemmas -/

theorem probeChecked_eq (table : List (String × String)) (c : String) (n : Nat) :
    probeChecked table c n =
      some (if n ≤ c.data.length then mfind table (strTake c n) else none) := by
  unfold probeChecked strTakeChecked strTake
  split
  · rfl
  · rfl

theorem startsWithL_nil (s : List Char) : startsWithL s [] = true := by
  cases s <;> rfl

theorem startsWithL_two {s : List Char} {a b : Char}
    (h : startsWithL s [a, b] = true) : ∃ t, s = a :: b :: t := by
  match s with
  | [] => simp [startsWithL] at h
  | c :: s' =>
    match s' with
    | [] =>
      simp only [startsWithL, Bool.and_eq_true] at h
      exact absurd h.2 (by simp [startsWithL])
    | d :: t =>
      simp only [startsWithL, Bool.and_eq_true, beq_iff_eq] at h
      exact ⟨t, by rw [h.1, h.2.1]⟩

theorem startsWithL_one {s : List Char} {a : Char}
    (h : startsWithL s [a] = true) : ∃ t, s = a :: t := by
  match s with
  | [] => simp [startsWithL] at h
  | c :: t =>
    simp only [startsWithL, Bool.and_eq_true, beq_iff_eq] at h
    exact ⟨t, by rw [h.1]⟩

theorem startsWithL_append_left (l r : List Char) :
    startsWithL (l ++ r) l = true := by
  induction l with
  | nil => exact startsWithL_nil _
  | cons c t ih => simp [startsWithL, ih]

theorem containsL_of_startsWithL {y sub : List Char}
    (h : startsWithL y sub = true) : containsL y sub = true := by
  match y with
  | [] => exact h
  | c :: t => simp [containsL, h]

theorem containsL_append {x y sub : List Char}
    (h : containsL y sub = true) : containsL (x ++ y) sub = true := by
  induction x with
  | nil => exact h
  | cons c t ih => simp [containsL, ih]

theorem startsWithL_map (f : Char → Char) {s p : List Char}
    (h : startsWithL s p = true) : startsWithL (s.map f) (p.map f) = true := by
  induction p generalizing s with
  | nil => exact startsWithL_nil _
  | cons d p' ih =>
    match s with
    | [] => simp [startsWithL] at h
    | c :: s' =>
      simp only [startsWithL, Bool.and_eq_true, beq_iff_eq] at h
      simp only [List.map, startsWithL, Bool.and_eq_true, beq_iff_eq]
      exact ⟨by rw [h.1], ih h.2⟩

theorem mfind_minsert_self {β : Type} (m : List (String × β)) (k : String) (v : β) :
    mfind (minsert m k v) k = some v := by
  simp [minsert, mfind]

/-! ### Claim theorems -/

/-- C1: loading a database from exactly the four lines
`C 02  Network controller`, tab-indented `00  Ethernet controller`,
`8086  Intel Corporation`, and tab-indented
`1533  I210 Gigabit Network Connection` resolves `0x0200` to
`Ethernet controller`, `0x8086` to `Intel Corporation`, and
`0x8086`/`0x1533` to `I210 Gigabit Network Connection`. -/
theorem claim1_roundTrip :
    getClassName (loadLines ["C 02  Network controller", "\t00  Ethernet controller", "8086  Intel Corporation", "\t1533  I210 Gigabit Network Connection"]) "0x0200" = "Ethernet controller"
  ∧ getVendorName (loadLines ["C 02  Network controller", "\t00  Ethernet controller", "8086  Intel Corporation", "\t1533  I210 Gigabit Network Connection"]) "0x8086" = "Intel Corporation"
  ∧ getDeviceName (loadLines ["C 02  Network controller", "\t00  Ethernet controller", "8086  Intel Corporation", "\t1533  I210 Gigabit Network Connection"]) "0x8086" "0x1533" = "I210 Gigabit Network Connection" := by
  decide

/-- C9: `getClassName` never slices out of bounds — the bounds-checked
variant `getClassNameChecked`, in which an out-of-range Go slice would
surface as `none` (a panic), agrees with `getClassName` and returns
`some` on every input, including the empty string and strings shorter
than 2, 4, or 6 characters; hence the accessor is total. -/
theorem claim9_total :
    ∀ (db : PciDB) (classID : String),
      getClassNameChecked db classID = some (getClassName db classID) := by
  intro db classID
  unfold getClassNameChecked getClassName
  simp only [probeChecked_eq]
  rcases h6 : (if 6 ≤ (normalizeID classID).data.length then
      mfind db.pciProgIfs (strTake (normalizeID classID) 6) else none) with _ | n6
  · rcases h4 : (if 4 ≤ (normalizeID classID).data.length then
        mfind db.pciSubclasses (strTake (normalizeID classID) 4) else none) with _ | n4
    · rcases h2 : (if 2 ≤ (normalizeID classID).data.length then
          mfind db.pciClasses (strTake (normalizeID classID) 2) else none) with _ | n2
      · rfl
      · rfl
    · rfl
  · rfl

/-- C2: `getClassName` probes at decreasing specificity.  A 6-character
programming-interface hit on the normalized code wins outright (in
particular even when 4- and 2-character entries exist for the same
prefix); with no such hit a 4-character subclass hit wins; with neither,
a 2-character base-class hit wins.  Each probe happens only when the
normalized code is long enough. -/
theorem claim2_specificity (db : PciDB) (code n : String) :
    (6 ≤ (normalizeID code).data.length →
      mfind db.pciProgIfs (strTake (normalizeID code) 6) = some n →
      getClassName db code = n)
  ∧ ((6 ≤ (normalizeID code).data.length →
        mfind db.pciProgIfs (strTake (normalizeID code) 6) = none) →
      4 ≤ (normalizeID code).data.length →
      mfind db.pciSubclasses (strTake (normalizeID code) 4) = some n →
      getClassName db code = n)
  ∧ ((6 ≤ (normalizeID code).data.length →
        mfind db.pciProgIfs (strTake (normalizeID code) 6) = none) →
      (4 ≤ (normalizeID code).data.length →
        mfind db.pciSubclasses (strTake (normalizeID code) 4) = none) →
      2 ≤ (normalizeID code).data.length →
      mfind db.pciClasses (strTake (normalizeID code) 2) = some n →
      getClassName db code = n) := by
  refine ⟨?_, ?_, ?_⟩
  · intro hc6 hf
    unfold getClassName
    simp only []
    rw [if_pos hc6, hf]
  · intro h6 hc4 hf
    unfold getClassName
    simp only []
    have e6 : (if 6 ≤ (normalizeID code).data.length then
        mfind db.pciProgIfs (strTake (normalizeID code) 6) else none) = none := by
      split
      · exact h6 (by assumption)
      · rfl
    rw [e6, if_pos hc4, hf]
  · intro h6 h4 hc2 hf
    unfold getClassName
    simp only []
    have e6 : (if 6 ≤ (normalizeID code).data.length then
        mfind db.pciProgIfs (strTake (normalizeID code) 6) else none) = none := by
      split
      · exact h6 (by assumption)
      · rfl
    have e4 : (if 4 ≤ (normalizeID code).data.length then
        mfind db.pciSubclasses (strTake (normalizeID code) 4) else none) = none := by
      split
      · exact h4 (by assumption)
      · rfl
    rw [e6, e4, if_pos hc2, hf]

/-- Witness for C2: a database holding a 2-digit class entry, a 4-digit
subclass entry and a 6-digit programming-interface entry for the same
prefix resolves `0x0200AB` to the programming-interface name. -/
theorem claim2_specificity_witness :
    getClassName ⟨[], [], [], [("02", "Class two")], [("0200", "Subclass")], [("0200ab", "ProgIF")]⟩ "0x0200AB" = "ProgIF" :=
  (claim2_specificity ⟨[], [], [], [("02", "Class two")], [("0200", "Subclass")], [("0200ab", "ProgIF")]⟩ "0x0200AB" "ProgIF").1 (by decide) (by decide)

/-- C5 counterexample: with an unopenable non-empty override path every
table is empty, yet `getClassName` does not return its normalized input
argument — it wraps it in an unknown-class label — so not every one of
the four accessors degrades to the normalized input. -/
theorem claim5_cex :
    getClassName (load (fun _ => none) ["/usr/share/misc/pci.ids"] "/nonexistent/pci.ids") "0200"
      ≠ normalizeID "0200" := by decide

/-- C5 (amended): if the database is constructed with a non-empty
override path that cannot be opened, every table remains empty;
`getVendorName`, `getDeviceName` and `getSubsystemName` return their
normalized relevant input argument for every query, while `getClassName`
returns the unknown-class label wrapping its normalized input. -/
theorem claim5_amended (fs : String → Option (List String)) (paths : List String)
    (customPath : String) (h1 : customPath ≠ "") (h2 : fs customPath = none) :
    load fs paths customPath = emptyDB
  ∧ (∀ v, getVendorName (load fs paths customPath) v = normalizeID v)
  ∧ (∀ v d, getDeviceName (load fs paths customPath) v d = normalizeID d)
  ∧ (∀ v d sv sd, getSubsystemName (load fs paths customPath) v d sv sd = normalizeID sd)
  ∧ (∀ c, getClassName (load fs paths customPath) c = "Unknown class (" ++ normalizeID c ++ ")") := by
  have hload : load fs paths customPath = emptyDB := by
    unfold load
    rw [if_pos h1, h2]
  refine ⟨hload, ?_, ?_, ?_, ?_⟩
  · intro v; rw [hload]; rfl
  · intro v d; rw [hload]; rfl
  · intro v d sv sd; rw [hload]; rfl
  · intro c
    rw [hload]
    unfold getClassName
    simp only []
    have e6 : (if 6 ≤ (normalizeID c).data.length then
        mfind emptyDB.pciProgIfs (strTake (normalizeID c) 6) else none) = none := by
      split <;> rfl
    have e4 : (if 4 ≤ (normalizeID c).data.length then
        mfind emptyDB.pciSubclasses (strTake (normalizeID c) 4) else none) = none := by
      split <;> rfl
    have e2 : (if 2 ≤ (normalizeID c).data.length then
        mfind emptyDB.pciClasses (strTake (normalizeID c) 2) else none) = none := by
      split <;> rfl
    rw [e6, e4, e2]

/-- Witness for C5 (amended): a vendor lookup against the database built
from the unopenable override path `/nonexistent/pci.ids` returns the
normalized query. -/
theorem claim5_amended_witness :
    getVendorName (load (fun _ => none) [] "/nonexistent/pci.ids") "0xAB12" = normalizeID "0xAB12" :=
  (claim5_amended (fun _ => none) [] "/nonexistent/pci.ids" (by decide) rfl).2.1 "0xAB12"

/-- C6 counterexample: for the unmatched class code `0xAB9999`,
`getClassName` returns `Unknown class (ab9999)`, which does not contain
the class code as the caller supplied it (`0xAB9999`) — it contains only
the normalized form. -/
theorem claim6_cex :
    getClassName emptyDB "0xAB9999" = "Unknown class (ab9999)"
  ∧ goContains (getClassName emptyDB "0xAB9999") "0xAB9999" = false := by decide

/-- C6 (amended): for every class code with no matching entry at any
specificity level, `getClassName` returns the string
`Unknown class (<normalized code>)`, which contains the normalized
(lowercased, 0x-stripped) class code and visibly marks it as unresolved
with the `Unknown class (` marker, rather than returning the bare
identifier as the other three accessors do. -/
theorem claim6_amended (db : PciDB) (code : String)
    (h6 : 6 ≤ (normalizeID code).data.length →
      mfind db.pciProgIfs (strTake (normalizeID code) 6) = none)
    (h4 : 4 ≤ (normalizeID code).data.length →
      mfind db.pciSubclasses (strTake (normalizeID code) 4) = none)
    (h2 : 2 ≤ (normalizeID code).data.length →
      mfind db.pciClasses (strTake (normalizeID code) 2) = none) :
    getClassName db code = "Unknown class (" ++ normalizeID code ++ ")"
  ∧ goContains (getClassName db code) (normalizeID code) = true
  ∧ goHasPref (getClassName db code) "Unknown class (" = true := by
  have hmain : getClassName db code = "Unknown class (" ++ normalizeID code ++ ")" := by
    unfold getClassName
    simp only []
    have e6 : (if 6 ≤ (normalizeID code).data.length then
        mfind db.pciProgIfs (strTake (normalizeID code) 6) else none) = none := by
      split
      · exact h6 (by assumption)
      · rfl
    have e4 : (if 4 ≤ (normalizeID code).data.length then
        mfind db.pciSubclasses (strTake (normalizeID code) 4) else none) = none := by
      split
      · exact h4 (by assumption)
      · rfl
    have e2 : (if 2 ≤ (normalizeID code).data.length then
        mfind db.pciClasses (strTake (normalizeID code) 2) else none) = none := by
      split
      · exact h2 (by assumption)
      · rfl
    rw [e6, e4, e2]
  have hcontains : goContains ("Unknown class (" ++ normalizeID code ++ ")") (normalizeID code) = true := by
    unfold goContains
    rw [String.data_append, String.data_append, List.append_assoc]
    exact containsL_append (containsL_of_startsWithL (startsWithL_append_left _ _))
  have hmark : goHasPref ("Unknown class (" ++ normalizeID code ++ ")") "Unknown class (" = true := by
    unfold goHasPref
    rw [String.data_append, String.data_append, List.append_assoc]
    exact startsWithL_append_left _ _
  exact ⟨hmain, hmain ▸ hcontains, hmain ▸ hmark⟩

/-- Witness for C6 (amended): the unmatched code `0xZZ99` resolves to the
unknown-class label containing its normalized form. -/
theorem claim6_amended_witness :
    getClassName emptyDB "0xZZ99" = "Unknown class (" ++ normalizeID "0xZZ99" ++ ")"
  ∧ goContains (getClassName emptyDB "0xZZ99") (normalizeID "0xZZ99") = true
  ∧ goHasPref (getClassName emptyDB "0xZZ99") "Unknown class (" = true :=
  claim6_amended emptyDB "0xZZ99" (by decide) (by decide) (by decide)

/-- C3 counterexample: after `C 02  Net`, its subclass `00  Eth`, and a
fresh class line `C 03  Display` with no intervening subclass line, the
parser's current-subclass state still holds `0200` (it is not reset), and
a following double-tab line `02  Weird` is attached to the key `020002`,
i.e. under the subclass of the previously parsed class `02`. -/
theorem claim3_cex :
    (List.foldl processLine initState ["C 02  Net", "\t00  Eth", "C 03  Display"]).currentSubclass = "0200"
  ∧ mfind (loadLines ["C 02  Net", "\t00  Eth", "C 03  Display", "\t\t02  Weird"]).pciProgIfs "020002" = some "Weird" := by
  decide

/-- C3 (amended): a class line starts a new class context (class code and
flag) but does not reset the current-subclass state — no line other than
a single-tab subclass line inside class context ever changes it; hence a
double-tab programming-interface line that follows a new class line with
no intervening subclass line is attached to the stale subclass key of a
previously parsed class whenever that state is non-empty. -/
theorem claim3_amended (st : LoadState) (line : String)
    (h : ¬ (goHasPref line "\t" = true ∧ goHasPref line "\t\t" = false ∧ st.inClassContext = true)) :
    (processLine st line).currentSubclass = st.currentSubclass := by
  unfold processLine
  split
  · rfl
  split
  · split <;> rfl
  split
  · rename_i hb
    simp only [Bool.and_eq_true, Bool.not_eq_true'] at hb
    exact absurd ⟨hb.1.1, hb.1.2, hb.2⟩ h
  split
  · dsimp only
    repeat' split
    all_goals rfl
  split
  · split <;> rfl
  split
  · dsimp only
    repeat' split
    all_goals rfl
  split
  · dsimp only
    repeat' split
    all_goals rfl
  · rfl

/-- Witness for C3 (amended): processing the class line `C 03  Display`
leaves the current-subclass state of the parser untouched. -/
theorem claim3_amended_witness :
    (processLine (List.foldl processLine initState ["C 02  Net", "\t00  Eth"]) "C 03  Display").currentSubclass
      = (List.foldl processLine initState ["C 02  Net", "\t00  Eth"]).currentSubclass :=
  claim3_amended _ "C 03  Display" (by decide)

/-! Lowercase predicates used by the key-normalization claims. -/

/-- Every character of the list is fixed by lowercasing. -/
def lowerL (l : List Char) : Prop := ∀ c ∈ l, c.toLower = c

/-- Every character of the string is fixed by lowercasing. -/
def lowerStr (s : String) : Prop := lowerL s.data

instance (l : List Char) : Decidable (lowerL l) :=
  inferInstanceAs (Decidable (∀ c ∈ l, c.toLower = c))

instance (s : String) : Decidable (lowerStr s) :=
  inferInstanceAs (Decidable (lowerL s.data))

/-- C7 counterexample: the vendor ID `AB12` is present in the loaded file
(its line parses and is stored under the verbatim key `AB12`), yet
querying `getVendorName` with that very spelling returns the normalized
input `ab12`, not the parsed name. -/
theorem claim7_cex :
    mfind (loadLines ["AB12  Some Vendor"]).pciVendors "AB12" = some "Some Vendor"
  ∧ getVendorName (loadLines ["AB12  Some Vendor"]) "AB12" = "ab12" := by
  decide

/-- C7 (amended): when a vendor ID is stored in lowercase without a `0x`
prefix (as in the standard `pci.ids` file), `getVendorName` returns the
parsed name for every query equal to the ID up to letter case, with or
without a literal `0x` prefix in front; and for every query whose
normalization is absent from the table it returns the normalized input
unchanged. -/
theorem claim7_amended (db : PciDB) (k n : String)
    (hpx : goHasPref k "0x" = false)
    (hfind : mfind db.pciVendors k = some n) :
    (∀ v, goToLower v = k → getVendorName db v = n)
  ∧ (∀ v, goToLower v = k → getVendorName db ("0x" ++ v) = n)
  ∧ (∀ q, mfind db.pciVendors (normalizeID q) = none → getVendorName db q = normalizeID q) := by
  have key_eq : ∀ v : String, goToLower v = k → normalizeID v = k := by
    intro v hv
    have hdata : v.data.map Char.toLower = k.data := congrArg String.data hv
    have hTrim : goTrimPref v "0x" = v := by
      unfold goTrimPref dropPrefL
      have hfalse : startsWithL v.data "0x".data = false := by
        cases hb : startsWithL v.data "0x".data
        · rfl
        · exfalso
          have h2 := startsWithL_map Char.toLower hb
          rw [hdata] at h2
          have h3 : goHasPref k "0x" = true := by
            unfold goHasPref
            simpa using h2
          rw [hpx] at h3
          exact Bool.false_ne_true h3
      rw [hfalse]
      simp
    unfold normalizeID
    rw [hTrim, hv]
  refine ⟨?_, ?_, ?_⟩
  · intro v hv
    unfold getVendorName
    simp only []
    rw [key_eq v hv, hfind]
  · intro v hv
    have hnorm : normalizeID ("0x" ++ v) = goToLower v := by
      unfold normalizeID goTrimPref dropPrefL
      rw [String.data_append]
      rw [if_pos (startsWithL_append_left "0x".data v.data)]
      show goToLower (String.mk (("0x".data ++ v.data).drop "0x".data.length)) = goToLower v
      rw [List.drop_left]
    unfold getVendorName
    simp only []
    rw [hnorm.trans hv, hfind]
  · intro q hq
    unfold getVendorName
    simp only []
    rw [hq]

/-- Witness for C7 (amended): with `ab12` stored, the query `0xAB12`
(written as `"0x" ++ "AB12"`) resolves to the parsed name. -/
theorem claim7_amended_witness :
    getVendorName ⟨[("ab12", "Foo Corp")], [], [], [], [], []⟩ ("0x" ++ "AB12") = "Foo Corp" :=
  (claim7_amended ⟨[("ab12", "Foo Corp")], [], [], [], [], []⟩ "ab12" "Foo Corp"
    (by decide) (by decide)).2.1 "AB12" (by decide)

/-! Characterizations of single parser steps, used for the duplicate-key
and malformed-line claims. -/

theorem goHasPref_t_of_tt {line : String} (h : goHasPref line "\t\t" = true) :
    goHasPref line "\t" = true := by
  unfold goHasPref at h ⊢
  have e : "\t\t".data = ['\t', '\t'] := rfl
  rw [e] at h
  obtain ⟨t, ht⟩ := startsWithL_two h
  rw [ht]
  rfl

theorem goHasPref_tt_false {line : String} (h : goHasPref line "\t" = false) :
    goHasPref line "\t\t" = false := by
  cases hb : goHasPref line "\t\t"
  · rfl
  · rw [goHasPref_t_of_tt hb] at h
    exact Bool.noConfusion h

theorem line_facts_of_C {line : String} (h : goHasPref line "C " = true) :
    line ≠ "" ∧ goHasPref line "#" = false := by
  have e : "C ".data = ['C', ' '] := rfl
  unfold goHasPref at h
  rw [e] at h
  obtain ⟨t, ht⟩ := startsWithL_two h
  constructor
  · intro he
    have e2 : ("" : String).data = [] := rfl
    rw [he, e2] at ht
    exact List.noConfusion ht
  · unfold goHasPref
    rw [ht]
    rfl

theorem line_facts_of_tab {line : String} (h : goHasPref line "\t" = true) :
    line ≠ "" ∧ goHasPref line "#" = false ∧ goHasPref line "C " = false := by
  have e : "\t".data = ['\t'] := rfl
  unfold goHasPref at h
  rw [e] at h
  obtain ⟨t, ht⟩ := startsWithL_one h
  refine ⟨?_, ?_, ?_⟩
  · intro he
    have e2 : ("" : String).data = [] := rfl
    rw [he, e2] at ht
    exact List.noConfusion ht
  · unfold goHasPref
    rw [ht]
    rfl
  · unfold goHasPref
    rw [ht]
    rfl

theorem processLine_vendor_eq (st : LoadState) (line : String) (p0 p1 : List Char)
    (h0 : line ≠ "") (h1 : goHasPref line "#" = false)
    (h2 : goHasPref line "C " = false) (h3 : goHasPref line "\t" = false)
    (hs : splitTwoSpace line.data = some (p0, p1)) :
    processLine st line =
      { st with
        db := { st.db with pciVendors := minsert st.db.pciVendors (goTrimSpace (String.mk p0)) (goTrimSpace (String.mk p1)) }
        currentVendor := goTrimSpace (String.mk p0)
        currentDevice := ""
        inClassContext := false } := by
  unfold processLine
  rw [if_neg (by simp [h0, h1] : ¬ ((decide (line = "") || goHasPref line "#") = true))]
  rw [if_neg (by simp [h2] : ¬ (goHasPref line "C " = true))]
  rw [if_neg (by simp [h3] : ¬ ((goHasPref line "\t" && !goHasPref line "\t\t" && st.inClassContext) = true))]
  rw [if_neg (by simp [goHasPref_tt_false h3] : ¬ ((goHasPref line "\t\t" && !goHasPref line "\t\t\t" && st.inClassContext) = true))]
  rw [if_pos (by simp [h2, h3] : (!goHasPref line "\t" && !goHasPref line "C ") = true)]
  rw [hs]

theorem processLine_class_eq (st : LoadState) (line : String) (p0 p1 : List Char)
    (hC : goHasPref line "C " = true)
    (hs : splitTwoSpace line.data = some (p0, p1)) :
    processLine st line =
      { st with
        db := { st.db with pciClasses := minsert st.db.pciClasses (goTrimSpace (String.mk (p0.drop 1))) (goTrimSpace (String.mk p1)) }
        currentBaseClass := goTrimSpace (String.mk (p0.drop 1))
        inClassContext := true } := by
  obtain ⟨h0, h1⟩ := line_facts_of_C hC
  unfold processLine
  rw [if_neg (by simp [h0, h1] : ¬ ((decide (line = "") || goHasPref line "#") = true))]
  rw [if_pos hC]
  rw [hs]

theorem processLine_device_eq (st : LoadState) (line : String) (p0 p1 : List Char)
    (ht : goHasPref line "\t" = true) (htt : goHasPref line "\t\t" = false)
    (hctx : st.inClassContext = false)
    (hs : splitTwoSpace (goTrimPref line "\t").data = some (p0, p1))
    (hv : st.currentVendor ≠ "") :
    processLine st line =
      { st with
        db := { st.db with pciDevices := insertNested st.db.pciDevices st.currentVendor (goTrimSpace (String.mk p0)) (goTrimSpace (String.mk p1)) }
        currentDevice := goTrimSpace (String.mk p0) } := by
  obtain ⟨h0, h1, h2⟩ := line_facts_of_tab ht
  unfold processLine
  rw [if_neg (by simp [h0, h1] : ¬ ((decide (line = "") || goHasPref line "#") = true))]
  rw [if_neg (by simp [h2] : ¬ (goHasPref line "C " = true))]
  rw [if_neg (by simp [hctx] : ¬ ((goHasPref line "\t" && !goHasPref line "\t\t" && st.inClassContext) = true))]
  rw [if_neg (by simp [hctx] : ¬ ((goHasPref line "\t\t" && !goHasPref line "\t\t\t" && st.inClassContext) = true))]
  rw [if_neg (by simp [ht] : ¬ ((!goHasPref line "\t" && !goHasPref line "C ") = true))]
  rw [if_pos (by simp [ht, htt] : (goHasPref line "\t" && !goHasPref line "\t\t") = true)]
  dsimp only
  rw [hs]
  dsimp only
  rw [if_pos hv]

/-- C10: well-formed duplicate lines overwrite.  For a vendor line, a
class line, or (under a fixed current vendor) a device line whose key
equals that of an earlier well-formed line of the same kind, the loaded
table maps the key to the name of the later line, and parsing does not
fail. -/
theorem claim10_overwrite (st : LoadState) :
    (∀ l1 l2 p0 q0 p1 q1,
      l1 ≠ "" → goHasPref l1 "#" = false → goHasPref l1 "C " = false → goHasPref l1 "\t" = false →
      splitTwoSpace l1.data = some (p0, q0) →
      l2 ≠ "" → goHasPref l2 "#" = false → goHasPref l2 "C " = false → goHasPref l2 "\t" = false →
      splitTwoSpace l2.data = some (p1, q1) →
      goTrimSpace (String.mk p1) = goTrimSpace (String.mk p0) →
      mfind (List.foldl processLine st [l1, l2]).db.pciVendors (goTrimSpace (String.mk p0))
        = some (goTrimSpace (String.mk q1)))
  ∧ (∀ l1 l2 p0 q0 p1 q1,
      goHasPref l1 "C " = true → splitTwoSpace l1.data = some (p0, q0) →
      goHasPref l2 "C " = true → splitTwoSpace l2.data = some (p1, q1) →
      goTrimSpace (String.mk (p1.drop 1)) = goTrimSpace (String.mk (p0.drop 1)) →
      mfind (List.foldl processLine st [l1, l2]).db.pciClasses (goTrimSpace (String.mk (p0.drop 1)))
        = some (goTrimSpace (String.mk q1)))
  ∧ (∀ l1 l2 p0 q0 p1 q1,
      st.inClassContext = false → st.currentVendor ≠ "" →
      goHasPref l1 "\t" = true → goHasPref l1 "\t\t" = false →
      splitTwoSpace (goTrimPref l1 "\t").data = some (p0, q0) →
      goHasPref l2 "\t" = true → goHasPref l2 "\t\t" = false →
      splitTwoSpace (goTrimPref l2 "\t").data = some (p1, q1) →
      goTrimSpace (String.mk p1) = goTrimSpace (String.mk p0) →
      mfind ((mfind (List.foldl processLine st [l1, l2]).db.pciDevices st.currentVendor).getD [])
          (goTrimSpace (String.mk p0))
        = some (goTrimSpace (String.mk q1))) := by
  refine ⟨?_, ?_, ?_⟩
  · intro l1 l2 p0 q0 p1 q1 h10 h11 h12 h13 h1s h20 h21 h22 h23 h2s hid
    simp only [List.foldl_cons, List.foldl_nil]
    rw [processLine_vendor_eq st l1 p0 q0 h10 h11 h12 h13 h1s]
    rw [processLine_vendor_eq _ l2 p1 q1 h20 h21 h22 h23 h2s]
    simp only [hid]
    exact mfind_minsert_self _ _ _
  · intro l1 l2 p0 q0 p1 q1 h1C h1s h2C h2s hid
    simp only [List.foldl_cons, List.foldl_nil]
    rw [processLine_class_eq st l1 p0 q0 h1C h1s]
    rw [processLine_class_eq _ l2 p1 q1 h2C h2s]
    simp only [hid]
    exact mfind_minsert_self _ _ _
  · intro l1 l2 p0 q0 p1 q1 hctx hv h1t h1tt h1s h2t h2tt h2s hid
    simp only [List.foldl_cons, List.foldl_nil]
    rw [processLine_device_eq st l1 p0 q0 h1t h1tt hctx h1s hv]
    rw [processLine_device_eq
      { st with
        db := { st.db with pciDevices := insertNested st.db.pciDevices st.currentVendor (goTrimSpace (String.mk p0)) (goTrimSpace (String.mk q0)) }
        currentDevice := goTrimSpace (String.mk p0) }
      l2 p1 q1 h2t h2tt hctx h2s hv]
    simp only [hid]
    simp [insertNested, minsert, mfind]

/-- Materialising an empty inner subsystem map is invisible to lookups. -/
theorem getSubsystemName_ensureKey (db : PciDB) (k v d sv sd : String) :
    getSubsystemName { db with pciSubsystems := ensureKey db.pciSubsystems k } v d sv sd
      = getSubsystemName db v d sv sd := by
  unfold getSubsystemName ensureKey
  dsimp only
  rcases hk : mfind db.pciSubsystems k with _ | inner
  · simp only [minsert, mfind]
    by_cases he : k = normalizeID v ++ ":" ++ normalizeID d
    · rw [if_pos he]
      rw [he] at hk
      rw [hk]
      rfl
    · rw [if_neg he]
  · rfl

/-- C8 counterexample: a double-tab subsystem line whose identifier
payload `badsubsys` is a single token stores no name entry, but it does
change the subsystem table: the key `1af4:1000` (current vendor:device)
appears, bound to an empty inner map, where before the line there was no
key at all.  So not all six tables are identical to their prior state. -/
theorem claim8_cex :
    (loadLines ["1af4  Red Hat", "\t1000  Virtio net"]).pciSubsystems = []
  ∧ (loadLines ["1af4  Red Hat", "\t1000  Virtio net", "\t\tbadsubsys  Name"]).pciSubsystems
      = [("1af4:1000", [])] := by
  decide

/-- C8 (amended): a double-tab subsystem line whose identifier payload is
not exactly two whitespace-separated tokens stores no subsystem name
entry: the parser state and five of the six tables are unchanged, and the
subsystem table is either unchanged or extended by an empty inner map
under the current vendor:device key — a change no `getSubsystemName`
query can observe. -/
theorem claim8_amended (st : LoadState) (line : String) (p0 p1 : List Char)
    (htt : goHasPref line "\t\t" = true)
    (hctx : st.inClassContext = false)
    (hs : splitTwoSpace (goTrimPref line "\t\t").data = some (p0, p1))
    (hbad : (goFields (goTrimSpace (String.mk p0))).length ≠ 2) :
    ((processLine st line).currentVendor = st.currentVendor
      ∧ (processLine st line).currentDevice = st.currentDevice
      ∧ (processLine st line).currentBaseClass = st.currentBaseClass
      ∧ (processLine st line).currentSubclass = st.currentSubclass
      ∧ (processLine st line).inClassContext = st.inClassContext)
  ∧ ((processLine st line).db.pciVendors = st.db.pciVendors
      ∧ (processLine st line).db.pciDevices = st.db.pciDevices
      ∧ (processLine st line).db.pciClasses = st.db.pciClasses
      ∧ (processLine st line).db.pciSubclasses = st.db.pciSubclasses
      ∧ (processLine st line).db.pciProgIfs = st.db.pciProgIfs)
  ∧ ((processLine st line).db.pciSubsystems = st.db.pciSubsystems
      ∨ (processLine st line).db.pciSubsystems
          = ensureKey st.db.pciSubsystems (st.currentVendor ++ ":" ++ st.currentDevice))
  ∧ (∀ v d sv sd, getSubsystemName (processLine st line).db v d sv sd
      = getSubsystemName st.db v d sv sd) := by
  have ht := goHasPref_t_of_tt htt
  obtain ⟨h0, h1, h2⟩ := line_facts_of_tab ht
  have hstep : processLine st line = st ∨ processLine st line =
      { st with db := { st.db with
          pciSubsystems := ensureKey st.db.pciSubsystems (st.currentVendor ++ ":" ++ st.currentDevice) } } := by
    unfold processLine
    rw [if_neg (by simp [h0, h1] : ¬ ((decide (line = "") || goHasPref line "#") = true))]
    rw [if_neg (by simp [h2] : ¬ (goHasPref line "C " = true))]
    rw [if_neg (by simp [hctx] : ¬ ((goHasPref line "\t" && !goHasPref line "\t\t" && st.inClassContext) = true))]
    rw [if_neg (by simp [hctx] : ¬ ((goHasPref line "\t\t" && !goHasPref line "\t\t\t" && st.inClassContext) = true))]
    rw [if_neg (by simp [ht] : ¬ ((!goHasPref line "\t" && !goHasPref line "C ") = true))]
    rw [if_neg (by simp [htt] : ¬ ((goHasPref line "\t" && !goHasPref line "\t\t") = true))]
    rw [if_pos htt]
    dsimp only
    rw [hs]
    dsimp only
    by_cases hvd : st.currentVendor ≠ "" ∧ st.currentDevice ≠ ""
    · rw [if_pos hvd]
      right
      rcases hgf : goFields (goTrimSpace (String.mk p0)) with _ | ⟨a, rest⟩
      · rfl
      · rcases rest with _ | ⟨b, rest2⟩
        · rfl
        · rcases rest2 with _ | ⟨c, rest3⟩
          · rw [hgf] at hbad
            simp at hbad
          · rfl
    · rw [if_neg hvd]
      exact Or.inl rfl
  rcases hstep with hP | hP <;> rw [hP]
  · exact ⟨⟨rfl, rfl, rfl, rfl, rfl⟩, ⟨rfl, rfl, rfl, rfl, rfl⟩, Or.inl rfl,
      fun v d sv sd => rfl⟩
  · exact ⟨⟨rfl, rfl, rfl, rfl, rfl⟩, ⟨rfl, rfl, rfl, rfl, rfl⟩, Or.inr rfl,
      fun v d sv sd => getSubsystemName_ensureKey st.db _ v d sv sd⟩

/-- Witness for C8 (amended): after vendor `1af4` and device `1000`, the
malformed subsystem line `badsubsys  Name` leaves every subsystem lookup
unchanged. -/
theorem claim8_amended_witness :
    getSubsystemName (processLine (List.foldl processLine initState ["1af4  Red Hat", "\t1000  Virtio net"]) "\t\tbadsubsys  Name").db "1af4" "1000" "1af4" "0001"
      = getSubsystemName (List.foldl processLine initState ["1af4  Red Hat", "\t1000  Virtio net"]).db "1af4" "1000" "1af4" "0001" :=
  (claim8_amended (List.foldl processLine initState ["1af4  Red Hat", "\t1000  Virtio net"])
    "\t\tbadsubsys  Name" "badsubsys".data "Name".data
    (by decide) (by decide) (by decide) (by decide)).2.2.2 "1af4" "1000" "1af4" "0001"

/-- Witness for C10: two vendor lines with the same ID `8086`; the loaded
table holds the later name. -/
theorem claim10_overwrite_witness :
    mfind (List.foldl processLine initState ["8086  Old Name", "8086  New Name"]).db.pciVendors
        (goTrimSpace (String.mk "8086".data))
      = some (goTrimSpace (String.mk "New Name".data)) :=
  (claim10_overwrite initState).1 "8086  Old Name" "8086  New Name"
    "8086".data "Old Name".data "8086".data "New Name".data
    (by decide) (by decide) (by decide) (by decide) (by decide)
    (by decide) (by decide) (by decide) (by decide) (by decide) (by decide)

/-! Subset lemmas: every identifier field the parser stores is built from
characters of the input line. -/

theorem splitTwoSpace_subset {l a b : List Char} (h : splitTwoSpace l = some (a, b)) :
    (∀ c ∈ a, c ∈ l) ∧ (∀ c ∈ b, c ∈ l) := by
  induction l generalizing a b with
  | nil => exact absurd h (by simp [splitTwoSpace])
  | cons c rest ih =>
    cases rest with
    | nil => exact absurd h (by simp [splitTwoSpace])
    | cons d rest2 =>
      unfold splitTwoSpace at h
      split at h
      · rw [Option.some.injEq, Prod.mk.injEq] at h
        obtain ⟨ha, hb⟩ := h
        constructor
        · intro x hx
          rw [← ha] at hx
          exact absurd hx (List.not_mem_nil x)
        · intro x hx
          rw [← hb] at hx
          exact List.mem_cons_of_mem _ (List.mem_cons_of_mem _ hx)
      · rcases hrec : splitTwoSpace (d :: rest2) with _ | ⟨a', b'⟩
        · rw [hrec] at h
          exact absurd h (by simp)
        · rw [hrec] at h
          rw [Option.map_some', Option.some.injEq, Prod.mk.injEq] at h
          obtain ⟨ha, hb⟩ := h
          obtain ⟨iha, ihb⟩ := ih hrec
          constructor
          · intro x hx
            rw [← ha] at hx
            rcases List.mem_cons.1 hx with hx1 | hx1
            · rw [hx1]; exact List.mem_cons_self _ _
            · exact List.mem_cons_of_mem _ (iha x hx1)
          · intro x hx
            rw [← hb] at hx
            exact List.mem_cons_of_mem _ (ihb x hx)

theorem trimSpaceL_subset (l : List Char) : ∀ c ∈ trimSpaceL l, c ∈ l := by
  intro c hc
  unfold trimSpaceL at hc
  rw [List.mem_reverse] at hc
  have h1 := (List.dropWhile_sublist (l := (l.dropWhile goIsSpace).reverse) goIsSpace).subset hc
  rw [List.mem_reverse] at h1
  exact (List.dropWhile_sublist (l := l) goIsSpace).subset h1

theorem dropPrefL_subset (s p : List Char) : ∀ c ∈ dropPrefL s p, c ∈ s := by
  unfold dropPrefL
  split
  · exact fun c hc => List.drop_subset _ _ hc
  · exact fun c hc => hc

theorem fieldsAux_subset (l : List Char) : ∀ (acc : List Char) (f : List Char),
    f ∈ fieldsAux l acc → ∀ c ∈ f, c ∈ l ∨ c ∈ acc := by
  induction l with
  | nil =>
    intro acc f hf c hc
    unfold fieldsAux at hf
    split at hf
    · exact absurd hf (List.not_mem_nil f)
    · rcases List.mem_cons.1 hf with h | h
      · rw [h] at hc
        right
        exact List.mem_reverse.1 hc
      · exact absurd h (List.not_mem_nil f)
  | cons d rest ih =>
    intro acc f hf c hc
    unfold fieldsAux at hf
    split at hf
    · split at hf
      · rcases ih [] f hf c hc with h | h
        · left; exact List.mem_cons_of_mem _ h
        · exact absurd h (List.not_mem_nil c)
      · rcases List.mem_cons.1 hf with h | h
        · rw [h] at hc
          right
          exact List.mem_reverse.1 hc
        · rcases ih [] f h c hc with h2 | h2
          · left; exact List.mem_cons_of_mem _ h2
          · exact absurd h2 (List.not_mem_nil c)
    · rcases ih (d :: acc) f hf c hc with h | h
      · left; exact List.mem_cons_of_mem _ h
      · rcases List.mem_cons.1 h with h2 | h2
        · left; rw [h2]; exact List.mem_cons_self _ _
        · right; exact h2

/-! The lowercase-key invariant of the parser. -/

/-- All keys of a flat table are lowercase. -/
def tableLower (m : List (String × String)) : Prop := ∀ p ∈ m, lowerStr p.1

/-- All outer and inner keys of a nested table are lowercase. -/
def nestedLower (m : List (String × List (String × String))) : Prop :=
  ∀ p ∈ m, lowerStr p.1 ∧ ∀ q ∈ p.2, lowerStr q.1

/-- Every key stored in any of the six tables is lowercase. -/
def dbKeysLower (db : PciDB) : Prop :=
  tableLower db.pciVendors ∧ nestedLower db.pciDevices ∧ nestedLower db.pciSubsystems
  ∧ tableLower db.pciClasses ∧ tableLower db.pciSubclasses ∧ tableLower db.pciProgIfs

/-- The parser invariant: all stored keys and all context identifiers are
lowercase. -/
def stateLower (st : LoadState) : Prop :=
  dbKeysLower st.db ∧ lowerStr st.currentVendor ∧ lowerStr st.currentDevice
  ∧ lowerStr st.currentBaseClass ∧ lowerStr st.currentSubclass

theorem lowerStr_mk_of_subset {l p : List Char} (hp : ∀ c ∈ p, c ∈ l) (hl : lowerL l) :
    lowerStr (String.mk p) :=
  fun c hc => hl c (hp c hc)

theorem lowerStr_trim_of_subset {l p : List Char} (hp : ∀ c ∈ p, c ∈ l) (hl : lowerL l) :
    lowerStr (goTrimSpace (String.mk p)) :=
  fun c hc => hl c (hp c (trimSpaceL_subset p c hc))

theorem lowerStr_append {s t : String} (hs : lowerStr s) (ht : lowerStr t) :
    lowerStr (s ++ t) := by
  intro c hc
  rw [String.data_append] at hc
  rcases List.mem_append.1 hc with h | h
  · exact hs c h
  · exact ht c h

theorem tableLower_minsert {m : List (String × String)} {k v : String}
    (hm : tableLower m) (hk : lowerStr k) : tableLower (minsert m k v) := by
  intro p hp
  rcases List.mem_cons.1 hp with h | h
  · rw [h]; exact hk
  · exact hm p h

theorem mfind_mem {β : Type} {m : List (String × β)} {q : String} {v : β}
    (h : mfind m q = some v) : ∃ k, (k, v) ∈ m := by
  induction m with
  | nil => exact absurd h (by simp [mfind])
  | cons p rest ih =>
    obtain ⟨k1, v1⟩ := p
    unfold mfind at h
    split at h
    · rw [Option.some.injEq] at h
      exact ⟨k1, by rw [h]; exact List.mem_cons_self _ _⟩
    · obtain ⟨k, hk⟩ := ih h
      exact ⟨k, List.mem_cons_of_mem _ hk⟩

theorem nestedLower_insertNested {m : List (String × List (String × String))}
    {k1 k2 v : String} (hm : nestedLower m) (h1 : lowerStr k1) (h2 : lowerStr k2) :
    nestedLower (insertNested m k1 k2 v) := by
  intro p hp
  unfold insertNested minsert at hp
  rcases List.mem_cons.1 hp with h | h
  · rw [h]
    refine ⟨h1, ?_⟩
    intro q hq
    rcases List.mem_cons.1 hq with hq1 | hq1
    · rw [hq1]; exact h2
    · rcases hf : mfind m k1 with _ | inner
      · rw [hf] at hq1
        exact absurd hq1 (List.not_mem_nil q)
      · rw [hf] at hq1
        obtain ⟨k, hk⟩ := mfind_mem hf
        exact (hm _ hk).2 q hq1
  · exact hm p h

theorem nestedLower_ensureKey {m : List (String × List (String × String))} {k : String}
    (hm : nestedLower m) (hk : lowerStr k) : nestedLower (ensureKey m k) := by
  unfold ensureKey
  split
  · exact hm
  · intro p hp
    rcases List.mem_cons.1 hp with h | h
    · rw [h]
      exact ⟨hk, fun q hq => absurd hq (List.not_mem_nil q)⟩
    · exact hm p h

theorem goFields_lower {s : String} (hs : lowerStr s) : ∀ a ∈ goFields s, lowerStr a := by
  intro a ha
  unfold goFields at ha
  rcases List.mem_map.1 ha with ⟨f, hf, hfa⟩
  rw [← hfa]
  intro c hc
  rcases fieldsAux_subset s.data [] f hf c hc with h | h
  · exact hs c h
  · exact absurd h (List.not_mem_nil c)

/-- One parser step preserves the lowercase-key invariant when the line
is all lowercase. -/
theorem processLine_stateLower {st : LoadState} {line : String}
    (hst : stateLower st) (hline : lowerStr line) : stateLower (processLine st line) := by
  obtain ⟨⟨hV, hD, hS, hC, hSC, hP⟩, hcv, hcd, hcb, hcs⟩ := hst
  have hempty : lowerStr "" := fun _ hc => nomatch hc
  have hcolon : lowerStr ":" := by decide
  have hlineL : lowerL line.data := hline
  unfold processLine
  split
  · exact ⟨⟨hV, hD, hS, hC, hSC, hP⟩, hcv, hcd, hcb, hcs⟩
  split
  · -- class line
    dsimp only
    split
    · rename_i p0 p1 hsp
      have hk : lowerStr (goTrimSpace (String.mk (p0.drop 1))) :=
        lowerStr_trim_of_subset
          (fun c hc => (splitTwoSpace_subset hsp).1 c (List.drop_subset 1 p0 hc)) hlineL
      exact ⟨⟨hV, hD, hS, tableLower_minsert hC hk, hSC, hP⟩, hcv, hcd, hk, hcs⟩
    · exact ⟨⟨hV, hD, hS, hC, hSC, hP⟩, hcv, hcd, hcb, hcs⟩
  split
  · -- subclass line
    dsimp only
    split
    · rename_i p0 p1 hsp
      split
      · have hptr : lowerL (goTrimPref line "\t").data :=
          fun c hc => hlineL c (dropPrefL_subset line.data "\t".data c hc)
        have hk : lowerStr (st.currentBaseClass ++ goTrimSpace (String.mk p0)) :=
          lowerStr_append hcb
            (lowerStr_trim_of_subset (splitTwoSpace_subset hsp).1 hptr)
        exact ⟨⟨hV, hD, hS, hC, tableLower_minsert hSC hk, hP⟩, hcv, hcd, hcb, hk⟩
      · exact ⟨⟨hV, hD, hS, hC, hSC, hP⟩, hcv, hcd, hcb, hcs⟩
    · exact ⟨⟨hV, hD, hS, hC, hSC, hP⟩, hcv, hcd, hcb, hcs⟩
  split
  · -- programming interface line
    dsimp only
    split
    · rename_i p0 p1 hsp
      split
      · have hptr : lowerL (goTrimPref line "\t\t").data :=
          fun c hc => hlineL c (dropPrefL_subset line.data "\t\t".data c hc)
        have hk : lowerStr (st.currentSubclass ++ goTrimSpace (String.mk p0)) :=
          lowerStr_append hcs
            (lowerStr_trim_of_subset (splitTwoSpace_subset hsp).1 hptr)
        exact ⟨⟨hV, hD, hS, hC, hSC, tableLower_minsert hP hk⟩, hcv, hcd, hcb, hcs⟩
      · exact ⟨⟨hV, hD, hS, hC, hSC, hP⟩, hcv, hcd, hcb, hcs⟩
    · exact ⟨⟨hV, hD, hS, hC, hSC, hP⟩, hcv, hcd, hcb, hcs⟩
  split
  · -- vendor line
    dsimp only
    split
    · rename_i p0 p1 hsp
      have hk : lowerStr (goTrimSpace (String.mk p0)) :=
        lowerStr_trim_of_subset (splitTwoSpace_subset hsp).1 hlineL
      exact ⟨⟨tableLower_minsert hV hk, hD, hS, hC, hSC, hP⟩, hk, hempty, hcb, hcs⟩
    · exact ⟨⟨hV, hD, hS, hC, hSC, hP⟩, hcv, hcd, hcb, hcs⟩
  split
  · -- device line
    dsimp only
    split
    · rename_i p0 p1 hsp
      split
      · have hptr : lowerL (goTrimPref line "\t").data :=
          fun c hc => hlineL c (dropPrefL_subset line.data "\t".data c hc)
        have hk : lowerStr (goTrimSpace (String.mk p0)) :=
          lowerStr_trim_of_subset (splitTwoSpace_subset hsp).1 hptr
        exact ⟨⟨hV, nestedLower_insertNested hD hcv hk, hS, hC, hSC, hP⟩, hcv, hk, hcb, hcs⟩
      · exact ⟨⟨hV, hD, hS, hC, hSC, hP⟩, hcv, hcd, hcb, hcs⟩
    · exact ⟨⟨hV, hD, hS, hC, hSC, hP⟩, hcv, hcd, hcb, hcs⟩
  split
  · -- subsystem line
    dsimp only
    split
    · rename_i p0 p1 hsp
      split
      · have hptr : lowerL (goTrimPref line "\t\t").data :=
          fun c hc => hlineL c (dropPrefL_subset line.data "\t\t".data c hc)
        have hsid : lowerStr (goTrimSpace (String.mk p0)) :=
          lowerStr_trim_of_subset (splitTwoSpace_subset hsp).1 hptr
        have hkey : lowerStr (st.currentVendor ++ ":" ++ st.currentDevice) :=
          lowerStr_append (lowerStr_append hcv hcolon) hcd
        have hS1 := nestedLower_ensureKey hS hkey
        split
        · rename_i a b hgf
          have ha : lowerStr a :=
            goFields_lower hsid a (by rw [hgf]; exact List.mem_cons_self _ _)
          have hb : lowerStr b :=
            goFields_lower hsid b
              (by rw [hgf]; exact List.mem_cons_of_mem _ (List.mem_cons_self _ _))
          have hk2 : lowerStr (a ++ ":" ++ b) :=
            lowerStr_append (lowerStr_append ha hcolon) hb
          exact ⟨⟨hV, hD, nestedLower_insertNested hS1 hkey hk2, hC, hSC, hP⟩, hcv, hcd, hcb, hcs⟩
        · exact ⟨⟨hV, hD, hS1, hC, hSC, hP⟩, hcv, hcd, hcb, hcs⟩
      · exact ⟨⟨hV, hD, hS, hC, hSC, hP⟩, hcv, hcd, hcb, hcs⟩
    · exact ⟨⟨hV, hD, hS, hC, hSC, hP⟩, hcv, hcd, hcb, hcs⟩
  · exact ⟨⟨hV, hD, hS, hC, hSC, hP⟩, hcv, hcd, hcb, hcs⟩

/-- C4 counterexample: loading a vendor line whose ID is `0xAB` stores
the key verbatim — `0xAB` is the sole vendor key, and it is neither
lowercase nor free of the `0x` prefix; normalizing lookups can therefore
never reach it (`getVendorName "0xAB"` misses). -/
theorem claim4_cex :
    mkeys (loadLines ["0xAB  Some vendor"]).pciVendors = ["0xAB"]
  ∧ ¬ lowerStr "0xAB"
  ∧ goHasPref "0xAB" "0x" = true
  ∧ getVendorName (loadLines ["0xAB  Some vendor"]) "0xAB" = "ab" := by
  refine ⟨by decide, by decide, by decide, by decide⟩

/-- C4 (amended): `load` stores keys verbatim (whitespace-trimmed, not
case-normalized, not 0x-stripped).  When every character of every input
line is already lowercase, every key stored in any of the six tables —
outer and inner keys alike — is lowercase, so the accessors' normalized
queries can coincide with stored keys exactly for files already written
in normalized form. -/
theorem claim4_amended (lines : List String) (h : ∀ l ∈ lines, lowerStr l) :
    dbKeysLower (loadLines lines) := by
  have main : ∀ (ls : List String) (st : LoadState), stateLower st →
      (∀ l ∈ ls, lowerStr l) → stateLower (List.foldl processLine st ls) := by
    intro ls
    induction ls with
    | nil => intro st hst _; exact hst
    | cons l rest ih =>
      intro st hst hl
      exact ih _ (processLine_stateLower hst (hl l (List.mem_cons_self _ _)))
        (fun x hx => hl x (List.mem_cons_of_mem _ hx))
  have h0 : stateLower initState := by
    refine ⟨⟨?_, ?_, ?_, ?_, ?_, ?_⟩, ?_, ?_, ?_, ?_⟩ <;>
      (intro x hx; exact absurd hx (List.not_mem_nil x))
  exact (main lines initState h0 h).1

/-- Witness for C4 (amended): an all-lowercase three-line file yields
tables whose keys are all lowercase. -/
theorem claim4_amended_witness :
    dbKeysLower (loadLines ["8086  intel corporation", "\t1533  i210", "\t\t1af4 0001  some subsystem"]) :=
  claim4_amended ["8086  intel corporation", "\t1533  i210", "\t\t1af4 0001  some subsystem"] (by decide)

end PciIds
